import Mathlib
/-! Shallow embedding of the generic-ebpf block allocator
(`src/sys/dev/ebpf/ebpf_allocator.c`) together with spec-modelled
fragments of the map and program subsystems, and proofs of the
specification claims about them.

Modelling conventions:
* machine addresses are `Nat` (pointer arithmetic never wraps in any
  defined execution of the C code, so idealised addresses are faithful);
* `uint32_t` arithmetic is `Nat` with explicit reduction mod `2 ^ 32`
  where the C operation can wrap (`u32`, `sub32`);
* the backing `ebpf_malloc` is an oracle: a list of results, one per
  call, where `none` models allocation failure and `some addr` models a
  successful allocation at address `addr`;
* the singly linked `EBPF_EPOCH_SLIST` lists are Lean lists whose head
  is `SLIST_FIRST`; the used-segment list keeps the byte size of each
  segment next to its base address so that the segment extent is
  available to the specification (the C code stores only the base).
-/

/-- Error numbers, as on the FreeBSD and Linux targets of the repository. -/
def EINVAL : Nat := 22

/-- Out-of-memory error number. -/
def ENOMEM : Nat := 12

/-- Not-found error number. -/
def ENOENT : Nat := 2

/-- Exists-error number. -/
def EEXIST : Nat := 17

/-- Busy-error number. -/
def EBUSY : Nat := 16

/-- Alignment `EBPF_ALLOCATOR_ALIGN = sizeof(void *)`, on the LP64 targets
of the repository. -/
def PTR_ALIGN : Nat := 8

/-- Header size `sizeof(ebpf_allocator_entry_t)`: the segment/block header is exactly one
`EBPF_EPOCH_SLIST_ENTRY`, i.e. one pointer, on LP64. -/
def ENTRY_SIZE : Nat := 8

/-- Reduction of a `size_t`-valued expression when it is stored into a
`uint32_t` variable. -/
def u32 (n : Nat) : Nat := n % 2 ^ 32

/-- Wrapping `uint32_t` subtraction `a - b`, for `a b < 2 ^ 32`. -/
def sub32 (a b : Nat) : Nat := (a + (2 ^ 32 - b % 2 ^ 32)) % 2 ^ 32

/-- State of `ebpf_allocator_t`: the `block_size` field, the `free_block`
SLIST of free block addresses and the `used_segment` SLIST of segments,
each recorded as (base address, byte size of the backing allocation).
The mutex has no sequential content and is not modelled. -/
structure ebpf_allocator where
  block_size : Nat
  free_block : List Nat
  used_segment : List (Nat × Nat)
  deriving DecidableEq

/-- Model of `ebpf_allocator_init`: rejects a block size that is zero or not a
multiple of `EBPF_ALLOCATOR_ALIGN`, otherwise records the block size and
initialises both SLISTs empty. -/
def ebpf_allocator_init (block_size : Nat) : Except Nat ebpf_allocator :=
  if block_size % PTR_ALIGN ≠ 0 ∨ block_size = 0 then
    Except.error EINVAL
  else
    Except.ok { block_size := block_size, free_block := [], used_segment := [] }

/-- The carving do/while loop of `ebpf_allocator_alloc`: insert the block at
`data` at the head of the free list, advance `data` by `block_size`,
subtract `block_size` from the `uint32_t` byte counter `size` and repeat
while `size > block_size`.  The extra `fuel` argument bounds the number of
iterations; every call in this file passes `size + 1`, which is at least
the number of iterations the C loop performs whenever `8 ≤ block_size ≤
size` (the loop then runs at most `size / block_size` further times), and
at least the one iteration a do/while always performs. -/
def carveFuel : Nat → Nat → Nat → Nat → List Nat → List Nat
  | 0, _, _, _, free => free
  | fuel + 1, bs, data, size, free =>
    if sub32 size bs > bs then
      carveFuel fuel bs (data + bs) (sub32 size bs) (data :: free)
    else
      data :: free

/-- The mutex-protected tail of `ebpf_allocator_alloc`:
`ret = SLIST_FIRST(free_block); SLIST_REMOVE_HEAD(free_block)`.
`SLIST_FIRST` of an empty list is NULL (`none`); the C `REMOVE_HEAD` would
then dereference NULL, which the model renders as leaving the state
unchanged (the situation is proved unreachable below). -/
def popFree (alloc : ebpf_allocator) (rest : List (Option Nat)) :
    Option Nat × ebpf_allocator × List (Option Nat) :=
  match alloc.free_block with
  | [] => (none, alloc, rest)
  | p :: ps => (some p, { alloc with free_block := ps }, rest)

/-- The segment size computation of `ebpf_allocator_alloc`: `uint32_t size`
starts as `ebpf_getpagesize()` and is raised to
`sizeof(ebpf_allocator_entry_t) + block_size + EBPF_ALLOCATOR_ALIGN` when
the page is smaller; the comparison is performed in `size_t` but the
assignment truncates the sum to `uint32_t`. -/
def segmentSize (pagesize bs : Nat) : Nat :=
  if pagesize < ENTRY_SIZE + bs + PTR_ALIGN
  then u32 (ENTRY_SIZE + bs + PTR_ALIGN)
  else pagesize

/-- Model of `ebpf_allocator_alloc`.  When the free list is empty it computes the
segment size, calls `ebpf_malloc(size)` (one oracle entry is consumed; an
exhausted oracle also models failure), links the new segment at the head
of `used_segment`, skips the segment header, realigns `data` when the
header end is misaligned, and carves blocks into the free list with the
do/while loop.  In all cases it then pops the head of the free list under
the lock. -/
def ebpf_allocator_alloc (pagesize : Nat) (alloc : ebpf_allocator)
    (mallocs : List (Option Nat)) :
    Option Nat × ebpf_allocator × List (Option Nat) :=
  if alloc.free_block.isEmpty then
    let size := segmentSize pagesize alloc.block_size
    match mallocs with
    | [] => (none, alloc, [])
    | none :: rest => (none, alloc, rest)
    | some addr :: rest =>
      let alloc1 : ebpf_allocator :=
        { alloc with used_segment := (addr, size) :: alloc.used_segment }
      let data0 := addr + ENTRY_SIZE
      let mis := data0 % PTR_ALIGN
      let data1 := if mis ≠ 0 then data0 + (PTR_ALIGN - mis) else data0
      let size1 := if mis ≠ 0 then sub32 size (PTR_ALIGN - mis) else size
      let alloc2 : ebpf_allocator :=
        { alloc1 with
            free_block := carveFuel (size1 + 1) alloc1.block_size data1 size1
              alloc1.free_block }
      popFree alloc2 rest
  else
    popFree alloc mallocs

/-- Model of `ebpf_allocator_free`: push `ptr` at the head of the free list.  It
never calls `free()`. -/
def ebpf_allocator_free (alloc : ebpf_allocator) (ptr : Nat) : ebpf_allocator :=
  { alloc with free_block := ptr :: alloc.free_block }

/-- The loop of `ebpf_allocator_prealloc`: `nblocks` times, allocate one
block and immediately return it to the free list, stopping with `ENOMEM`
at the first allocation failure. -/
def preallocLoop (pagesize : Nat) (alloc : ebpf_allocator) (n : Nat)
    (mallocs : List (Option Nat)) :
    Nat × ebpf_allocator × List (Option Nat) :=
  match n with
  | 0 => (0, alloc, mallocs)
  | n + 1 =>
    let r := ebpf_allocator_alloc pagesize alloc mallocs
    match r.1 with
    | none => (ENOMEM, r.2.1, r.2.2)
    | some tmp => preallocLoop pagesize (ebpf_allocator_free r.2.1 tmp) n r.2.2

/-- Model of `ebpf_allocator_prealloc`: rejects `nblocks == 0` with `EINVAL`, then
runs the alloc-and-free loop. -/
def ebpf_allocator_prealloc (pagesize : Nat) (alloc : ebpf_allocator)
    (nblocks : Nat) (mallocs : List (Option Nat)) :
    Nat × ebpf_allocator × List (Option Nat) :=
  if nblocks = 0 then (EINVAL, alloc, mallocs)
  else preallocLoop pagesize alloc nblocks mallocs

/-- Model of `ebpf_allocator_deinit`: walks `used_segment` and releases every
segment to the operating system. -/
def ebpf_allocator_deinit (alloc : ebpf_allocator) : ebpf_allocator :=
  { alloc with used_segment := [] }

/-- A block address lies, with `bs` bytes after it, inside one of the
recorded segments. -/
def blockInSeg (bs : Nat) (segs : List (Nat × Nat)) (p : Nat) : Prop :=
  ∃ seg ∈ segs, seg.1 ≤ p ∧ p + bs ≤ seg.1 + seg.2

instance (bs : Nat) (segs : List (Nat × Nat)) (p : Nat) :
    Decidable (blockInSeg bs segs p) := by
  unfold blockInSeg
  infer_instance

/-- The specification invariant for a handed-out (or free) block: aligned
to pointer size and inside a recorded segment. -/
def blockInv (bs : Nat) (segs : List (Nat × Nat)) (p : Nat) : Prop :=
  p % PTR_ALIGN = 0 ∧ blockInSeg bs segs p

/-- Allocator well-formedness: block size as established by a successful
`ebpf_allocator_init` (positive multiple of the alignment) whose segment
size computation does not overflow `uint32_t`, and every block on the
free list satisfies the block invariant. -/
def allocatorInv (a : ebpf_allocator) : Prop :=
  PTR_ALIGN ≤ a.block_size ∧ a.block_size % PTR_ALIGN = 0 ∧
  ENTRY_SIZE + a.block_size + PTR_ALIGN < 2 ^ 32 ∧
  ∀ p ∈ a.free_block, blockInv a.block_size a.used_segment p

/- ------------------------------------------------------------------ -/
/- Spec-modelled map subsystem (hashtable backend).                    -/
/- ------------------------------------------------------------------ -/

/-- Update flag `EBPF_ANY`. -/
def EBPF_ANY : Nat := 0

/-- Update flag `EBPF_NOEXIST`. -/
def EBPF_NOEXIST : Nat := 1

/-- Update flag `EBPF_EXIST`. -/
def EBPF_EXIST : Nat := 2

/-- Modelled from the spec: the state of an `ebpf_map` with the HashTable
backend.  `ebpf_map.c` and `ebpf_map_hashtable.c` are not under `src/`
(only their test `part_001` is), so the backend is modelled from §3/§4.2
of the specification: keys are byte strings of length `key_size` compared
bytewise, values byte strings of length `value_size`, and the live
entries are a finite key/value association (the bucket array and the
implementation-defined hash only affect iteration order, which no claim
below depends on); the element count is bounded by `max_entries`. -/
structure ebpf_map where
  key_size : Nat
  value_size : Nat
  max_entries : Nat
  entries : List (List Nat × List Nat)
  deriving DecidableEq

/-- Bytewise key lookup in the entry association list. -/
def mapLookup : List (List Nat × List Nat) → List Nat → Option (List Nat)
  | [], _ => none
  | (k1, v) :: rest, k => if k1 = k then some v else mapLookup rest k

/-- Overwrite the value stored for a present key, keeping every other
entry. -/
def mapOverwrite : List (List Nat × List Nat) → List Nat → List Nat →
    List (List Nat × List Nat)
  | [], _, _ => []
  | (k1, v1) :: rest, k, v =>
    if k1 = k then (k1, v) :: rest else (k1, v1) :: mapOverwrite rest k v

/-- Remove the entry of a key from the entry association list. -/
def mapRemove : List (List Nat × List Nat) → List Nat →
    List (List Nat × List Nat)
  | [], _ => []
  | (k1, v1) :: rest, k =>
    if k1 = k then rest else (k1, v1) :: mapRemove rest k

/-- Modelled from the spec: `ebpf_map_update_elem_from_user` on a
HashTable map (§4.2): when the key is present, `NOEXIST` fails with the
exists-error and any other flag overwrites in place; when the key is
absent, `EXIST` fails with the not-found error, a full map fails with the
busy-error, and otherwise a new entry is inserted. -/
def ebpf_map_update_elem_from_user (m : ebpf_map) (k v : List Nat)
    (flags : Nat) : Nat × ebpf_map :=
  match mapLookup m.entries k with
  | some _ =>
    if flags = EBPF_NOEXIST then (EEXIST, m)
    else (0, { m with entries := mapOverwrite m.entries k v })
  | none =>
    if flags = EBPF_EXIST then (ENOENT, m)
    else if m.max_entries ≤ m.entries.length then (EBUSY, m)
    else (0, { m with entries := (k, v) :: m.entries })

/-- Modelled from the spec: `ebpf_map_delete_elem_from_user` on a
HashTable map (§4.2): not-found when the key is absent, otherwise the
entry is removed. -/
def ebpf_map_delete_elem_from_user (m : ebpf_map) (k : List Nat) :
    Nat × ebpf_map :=
  match mapLookup m.entries k with
  | none => (ENOENT, m)
  | some _ => (0, { m with entries := mapRemove m.entries k })

/-- Sequentially insert the given keys, all with value `v` and flag
`EBPF_ANY`, returning the list of error codes and the final map. -/
def insertAllAny (m : ebpf_map) (ks : List (List Nat)) (v : List Nat) :
    List Nat × ebpf_map :=
  match ks with
  | [] => ([], m)
  | k :: rest =>
    let r := ebpf_map_update_elem_from_user m k v EBPF_ANY
    let r2 := insertAllAny r.2 rest v
    (r.1 :: r2.1, r2.2)

/- ------------------------------------------------------------------ -/
/- Spec-modelled program object.                                       -/
/- ------------------------------------------------------------------ -/

/-- Program type `EBPF_PROG_TYPE_BAD` (stub placeholder). -/
def EBPF_PROG_TYPE_BAD : Nat := 0

/-- Program type `EBPF_PROG_TYPE_TEST`. -/
def EBPF_PROG_TYPE_TEST : Nat := 1

/-- Program type sentinel `EBPF_PROG_TYPE_MAX`. -/
def EBPF_PROG_TYPE_MAX : Nat := 2

/-- Maximum instruction count, `e.g. 4096` per §3 of the specification. -/
def EBPF_MAX_INSTS : Nat := 4096

/-- Opcode of the `EXIT` instruction. -/
def EBPF_OP_EXIT : Nat := 0x95

/-- One `struct ebpf_inst`: fields opcode:8, dst_reg:4, src_reg:4,
offset:16 signed, imm:32 signed. -/
structure ebpf_inst where
  opcode : Nat
  dst : Nat
  src : Nat
  offset : Int
  imm : Int
  deriving DecidableEq

/-- Attribute struct `ebpf_prog_attr`: type, instruction pointer (`none` models a
NULL `prog` field) and element count. -/
structure ebpf_prog_attr where
  type : Nat
  prog : Option (List ebpf_inst)
  prog_len : Nat
  deriving DecidableEq

/-- Modelled from the spec: `ebpf_prog_init` (`ebpf_prog.c` is not under
`src/`; only its test `ProgLoadTest` in `part_000` is).  Following §4.3,
it validates, in order, that the destination program pointer is non-null
(`prog_is_null = false`), the attribute pointer is non-null, the type is
below the `EBPF_PROG_TYPE_MAX` sentinel, the instruction pointer is
non-null and the length is in `[1, EBPF_MAX_INSTS]`, failing with
`EINVAL` on any violation; on the success path the instruction buffer
allocation is assumed to succeed, so the model returns 0. -/
def ebpf_prog_init (prog_is_null : Bool) (attr : Option ebpf_prog_attr) : Nat :=
  if prog_is_null then EINVAL
  else
    match attr with
    | none => EINVAL
    | some attr =>
      if EBPF_PROG_TYPE_MAX ≤ attr.type then EINVAL
      else if attr.prog.isNone then EINVAL
      else if attr.prog_len = 0 ∨ EBPF_MAX_INSTS < attr.prog_len then EINVAL
      else 0

/- ------------------------------------------------------------------ -/
/- Helper lemmas: uint32 arithmetic and the carving loop.              -/
/- ------------------------------------------------------------------ -/

theorem sub32_of_le {a b : Nat} (hba : b ≤ a) (ha : a < 2 ^ 32) :
    sub32 a b = a - b := by
  unfold sub32
  have hb : b % 2 ^ 32 = b := Nat.mod_eq_of_lt (lt_of_le_of_lt hba ha)
  rw [hb]
  have h1 : a + (2 ^ 32 - b) = (a - b) + 2 ^ 32 := by omega
  rw [h1, Nat.add_mod_right, Nat.mod_eq_of_lt (by omega)]

/-- Every block inserted by the carving loop is aligned and lies between
`lo` and `hi`, provided the loop starts in the regime the allocator
establishes: the byte counter is a multiple of the alignment, exceeds the
block size by at least one alignment, and accounts for all bytes from
`data` up to `hi` plus the segment header that was never subtracted. -/
theorem carveFuel_mem {bs : Nat} (hbs8 : bs % 8 = 0) (hbs : 8 ≤ bs) :
    ∀ (fuel data size : Nat) (free : List Nat) (lo hi : Nat),
      size % 8 = 0 → size < 2 ^ 32 → bs + 8 ≤ size → data % 8 = 0 →
      lo ≤ data → data + size = hi + 8 →
      ∀ p ∈ carveFuel fuel bs data size free,
        p ∈ free ∨ (p % 8 = 0 ∧ lo ≤ p ∧ p + bs ≤ hi) := by
  intro fuel
  induction fuel with
  | zero =>
    intro data size free lo hi _ _ _ _ _ _ p hp
    exact Or.inl hp
  | succ n ih =>
    intro data size free lo hi h8 hlt hge hd hlo hhi p hp
    simp only [carveFuel] at hp
    have hsub : sub32 size bs = size - bs := sub32_of_le (by omega) hlt
    rw [hsub] at hp
    by_cases hc : size - bs > bs
    · rw [if_pos hc] at hp
      have h2 := ih (data + bs) (size - bs) (data :: free) lo hi
        (by omega) (by omega) (by omega) (by omega) (by omega) (by omega) p hp
      rcases h2 with h2 | h2
      · rcases List.mem_cons.mp h2 with h3 | h3
        · subst h3
          exact Or.inr ⟨hd, hlo, by omega⟩
        · exact Or.inl h3
      · exact Or.inr h2
    · rw [if_neg hc] at hp
      rcases List.mem_cons.mp hp with h3 | h3
      · subst h3
        exact Or.inr ⟨hd, hlo, by omega⟩
      · exact Or.inl h3

/-- The carving loop only adds blocks in front of the initial free list. -/
theorem carveFuel_suffix (fuel : Nat) :
    ∀ (bs data size : Nat) (free : List Nat),
      ∃ l, carveFuel fuel bs data size free = l ++ free := by
  induction fuel with
  | zero => intro bs data size free; exact ⟨[], rfl⟩
  | succ n ih =>
    intro bs data size free
    simp only [carveFuel]
    by_cases hc : sub32 size bs > bs
    · rw [if_pos hc]
      obtain ⟨l, hl⟩ := ih bs (data + bs) (sub32 size bs) (data :: free)
      exact ⟨l ++ [data], by rw [hl]; simp⟩
    · rw [if_neg hc]
      exact ⟨[data], rfl⟩

/-- A do/while loop always runs its body at least once, so the carving
loop always leaves at least one block on the free list. -/
theorem carveFuel_ne_nil (n bs data size : Nat) (free : List Nat) :
    carveFuel (n + 1) bs data size free ≠ [] := by
  simp only [carveFuel]
  by_cases hc : sub32 size bs > bs
  · rw [if_pos hc]
    obtain ⟨l, hl⟩ := carveFuel_suffix n bs (data + bs) (sub32 size bs)
      (data :: free)
    rw [hl]
    simp
  · rw [if_neg hc]
    simp

theorem segmentSize_ge {bs : Nat} (pagesize : Nat)
    (hov : ENTRY_SIZE + bs + PTR_ALIGN < 2 ^ 32) :
    ENTRY_SIZE + bs + PTR_ALIGN ≤ segmentSize pagesize bs := by
  unfold segmentSize
  have hu : u32 (ENTRY_SIZE + bs + PTR_ALIGN) = ENTRY_SIZE + bs + PTR_ALIGN :=
    Nat.mod_eq_of_lt hov
  rw [hu]
  split <;> omega

theorem segmentSize_mod8 {pagesize bs : Nat} (hpg : pagesize % 8 = 0)
    (hbs : bs % 8 = 0) (hov : ENTRY_SIZE + bs + PTR_ALIGN < 2 ^ 32) :
    segmentSize pagesize bs % 8 = 0 := by
  unfold segmentSize
  have hu : u32 (ENTRY_SIZE + bs + PTR_ALIGN) = ENTRY_SIZE + bs + PTR_ALIGN :=
    Nat.mod_eq_of_lt hov
  rw [hu]
  have he : ENTRY_SIZE = 8 := rfl
  have ha : PTR_ALIGN = 8 := rfl
  split <;> omega

theorem segmentSize_lt {pagesize bs : Nat} (hpg : pagesize < 2 ^ 32)
    (hov : ENTRY_SIZE + bs + PTR_ALIGN < 2 ^ 32) :
    segmentSize pagesize bs < 2 ^ 32 := by
  unfold segmentSize
  have hu : u32 (ENTRY_SIZE + bs + PTR_ALIGN) = ENTRY_SIZE + bs + PTR_ALIGN :=
    Nat.mod_eq_of_lt hov
  rw [hu]
  split <;> omega

theorem segmentSize_eq_max {bs : Nat} (pagesize : Nat)
    (hov : ENTRY_SIZE + bs + PTR_ALIGN < 2 ^ 32) :
    segmentSize pagesize bs = max pagesize (ENTRY_SIZE + bs + PTR_ALIGN) := by
  unfold segmentSize
  have hu : u32 (ENTRY_SIZE + bs + PTR_ALIGN) = ENTRY_SIZE + bs + PTR_ALIGN :=
    Nat.mod_eq_of_lt hov
  rw [hu]
  rcases Nat.lt_or_ge pagesize (ENTRY_SIZE + bs + PTR_ALIGN) with h | h
  · rw [if_pos h, Nat.max_eq_right (le_of_lt h)]
  · rw [if_neg (by omega), Nat.max_eq_left h]

theorem popFree_isSome (alloc : ebpf_allocator) (rest : List (Option Nat))
    (h : alloc.free_block ≠ []) : (popFree alloc rest).1.isSome = true := by
  obtain ⟨bs, fb, segs⟩ := alloc
  cases fb with
  | nil => simp at h
  | cons p ps => simp [popFree]

/-- On an empty free list with a successful aligned backing allocation,
`ebpf_allocator_alloc` records the segment and pops from the carved free
list. -/
theorem alloc_refill_result (pagesize addr bs : Nat) (segs : List (Nat × Nat))
    (rest : List (Option Nat)) (haddr : addr % PTR_ALIGN = 0) :
    ebpf_allocator_alloc pagesize ⟨bs, [], segs⟩ (some addr :: rest) =
      popFree
        ⟨bs,
         carveFuel (segmentSize pagesize bs + 1) bs (addr + ENTRY_SIZE)
           (segmentSize pagesize bs) [],
         (addr, segmentSize pagesize bs) :: segs⟩ rest := by
  have hmis : (addr + ENTRY_SIZE) % PTR_ALIGN = 0 := by
    have h8 : addr % 8 = 0 := haddr
    show (addr + 8) % 8 = 0
    omega
  simp [ebpf_allocator_alloc, hmis]

/-- Failure cases of `ebpf_allocator_alloc` on an empty free list: the
oracle is exhausted or the backing allocation fails; the allocator state
is unchanged. -/
theorem alloc_fail_result (pagesize bs : Nat) (segs : List (Nat × Nat))
    (rest : List (Option Nat)) :
    ebpf_allocator_alloc pagesize ⟨bs, [], segs⟩ (none :: rest) =
      (none, ⟨bs, [], segs⟩, rest) ∧
    ebpf_allocator_alloc pagesize ⟨bs, [], segs⟩ [] =
      (none, ⟨bs, [], segs⟩, []) := by
  constructor <;> simp [ebpf_allocator_alloc]

/-- Pop on a non-empty free list. -/
theorem alloc_pop_result (pagesize bs : Nat) (p : Nat) (ps : List Nat)
    (segs : List (Nat × Nat)) (ms : List (Option Nat)) :
    ebpf_allocator_alloc pagesize ⟨bs, p :: ps, segs⟩ ms =
      (some p, ⟨bs, ps, segs⟩, ms) := by
  simp [ebpf_allocator_alloc, popFree]

/-- Every block carved from a fresh segment satisfies the block invariant
for that segment, in the non-overflowing regime. -/
theorem carved_block_inv (pagesize addr bs : Nat)
    (hbs8 : bs % PTR_ALIGN = 0) (hbs : PTR_ALIGN ≤ bs)
    (hov : ENTRY_SIZE + bs + PTR_ALIGN < 2 ^ 32)
    (hpg8 : pagesize % PTR_ALIGN = 0) (hpg32 : pagesize < 2 ^ 32)
    (haddr : addr % PTR_ALIGN = 0) :
    ∀ p ∈ carveFuel (segmentSize pagesize bs + 1) bs (addr + ENTRY_SIZE)
        (segmentSize pagesize bs) [],
      p % PTR_ALIGN = 0 ∧ addr ≤ p ∧ p + bs ≤ addr + segmentSize pagesize bs := by
  intro p hp
  have hbs8n : bs % 8 = 0 := hbs8
  have hbsn : 8 ≤ bs := hbs
  have haddrn : addr % 8 = 0 := haddr
  have hS8 : segmentSize pagesize bs % 8 = 0 := segmentSize_mod8 hpg8 hbs8 hov
  have hSlt : segmentSize pagesize bs < 2 ^ 32 := segmentSize_lt hpg32 hov
  have hSge : ENTRY_SIZE + bs + PTR_ALIGN ≤ segmentSize pagesize bs :=
    segmentSize_ge pagesize hov
  have hSgen : 8 + bs + 8 ≤ segmentSize pagesize bs := hSge
  have h := carveFuel_mem hbs8n hbsn (segmentSize pagesize bs + 1)
    (addr + ENTRY_SIZE) (segmentSize pagesize bs) [] addr
    (addr + segmentSize pagesize bs) hS8 hSlt (by omega)
    (by show (addr + 8) % 8 = 0; omega) (by show addr ≤ addr + 8; omega)
    (by show addr + 8 + segmentSize pagesize bs = addr + segmentSize pagesize bs + 8; omega)
    p hp
  rcases h with h | h
  · simp at h
  · exact ⟨h.1, h.2.1, h.2.2⟩

/-- A successful `ebpf_allocator_init` establishes the allocator
invariant whenever the requested block size keeps the segment size
computation inside `uint32_t`. -/
theorem init_establishes_inv {bs : Nat} {a : ebpf_allocator}
    (hov : ENTRY_SIZE + bs + PTR_ALIGN < 2 ^ 32)
    (h : ebpf_allocator_init bs = Except.ok a) : allocatorInv a := by
  unfold ebpf_allocator_init at h
  by_cases hc : bs % PTR_ALIGN ≠ 0 ∨ bs = 0
  · rw [if_pos hc] at h
    exact absurd h (by simp)
  · rw [if_neg hc] at h
    push_neg at hc
    obtain ⟨h1, h2⟩ := hc
    cases h
    refine ⟨?_, h1, hov, ?_⟩
    · have h1n : bs % 8 = 0 := h1
      show 8 ≤ bs
      omega
    · intro p hp
      simp at hp

/-- Freeing preserves the invariant: `ebpf_allocator_free` keeps it when the returned
pointer satisfies the block invariant, as every pointer obtained from
`ebpf_allocator_alloc` does. -/
theorem free_preserves_inv {a : ebpf_allocator} {p : Nat}
    (hinv : allocatorInv a) (hp : blockInv a.block_size a.used_segment p) :
    allocatorInv (ebpf_allocator_free a p) := by
  obtain ⟨h1, h2, h3, h4⟩ := hinv
  refine ⟨h1, h2, h3, ?_⟩
  intro q hq
  rcases List.mem_cons.mp hq with h | h
  · subst h; exact hp
  · exact h4 q h

/-- The segment list only grows across `ebpf_allocator_alloc`, so the
block invariant is monotone along it. -/
theorem blockInv_mono {bs : Nat} {segs segs2 : List (Nat × Nat)} {p : Nat}
    (hsub : ∀ s ∈ segs, s ∈ segs2) (h : blockInv bs segs p) :
    blockInv bs segs2 p := by
  obtain ⟨h1, seg, hseg, h2⟩ := h
  exact ⟨h1, seg, hsub seg hseg, h2⟩

/-- Allocation preserves the allocator invariant, and any
pointer it returns is aligned and lies inside a segment recorded on the
used-segment list of the post-state. -/
theorem alloc_preserves_inv (pagesize : Nat) (a : ebpf_allocator)
    (ms : List (Option Nat)) (hinv : allocatorInv a)
    (hpg8 : pagesize % PTR_ALIGN = 0) (hpg32 : pagesize < 2 ^ 32)
    (hal : ∀ addr rest, ms = some addr :: rest → addr % PTR_ALIGN = 0) :
    (ebpf_allocator_alloc pagesize a ms).2.1.block_size = a.block_size ∧
    allocatorInv (ebpf_allocator_alloc pagesize a ms).2.1 ∧
    ∀ p, (ebpf_allocator_alloc pagesize a ms).1 = some p →
      blockInv a.block_size (ebpf_allocator_alloc pagesize a ms).2.1.used_segment p := by
  obtain ⟨bs, fb, segs⟩ := a
  obtain ⟨hbs, hbs8, hov, hfree⟩ := hinv
  cases fb with
  | cons p ps =>
    rw [alloc_pop_result]
    refine ⟨rfl, ⟨hbs, hbs8, hov, ?_⟩, ?_⟩
    · intro q hq
      exact hfree q (List.mem_cons_of_mem p hq)
    · intro q hq
      cases hq
      exact hfree p (List.mem_cons_self p ps)
  | nil =>
    cases ms with
    | nil =>
      rw [(alloc_fail_result pagesize bs segs []).2]
      exact ⟨rfl, ⟨hbs, hbs8, hov, hfree⟩, by intro p h; cases h⟩
    | cons m rest =>
      cases m with
      | none =>
        rw [(alloc_fail_result pagesize bs segs rest).1]
        exact ⟨rfl, ⟨hbs, hbs8, hov, hfree⟩, by intro p h; cases h⟩
      | some addr =>
        have haddr : addr % PTR_ALIGN = 0 := hal addr rest rfl
        rw [alloc_refill_result pagesize addr bs segs rest haddr]
        have hcarve := carved_block_inv pagesize addr bs hbs8 hbs hov hpg8
          hpg32 haddr
        set carved := carveFuel (segmentSize pagesize bs + 1) bs
          (addr + ENTRY_SIZE) (segmentSize pagesize bs) [] with hcarved
        have hblk : ∀ p ∈ carved,
            blockInv bs ((addr, segmentSize pagesize bs) :: segs) p := by
          intro p hp
          obtain ⟨hp1, hp2, hp3⟩ := hcarve p hp
          exact ⟨hp1, (addr, segmentSize pagesize bs), List.mem_cons_self _ _,
            hp2, hp3⟩
        cases hc : carved with
        | nil =>
          simp only [popFree, hc]
          refine ⟨trivial, ⟨hbs, hbs8, hov, by intro p hp; simp at hp⟩, ?_⟩
          intro p h
          simp at h
        | cons q qs =>
          simp only [popFree, hc]
          refine ⟨trivial, ⟨hbs, hbs8, hov, ?_⟩, ?_⟩
          · intro p hp
            exact hblk p (by rw [hc]; exact List.mem_cons_of_mem q hp)
          · intro p h
            injection h with h
            subst h
            exact hblk q (by rw [hc]; exact List.mem_cons_self q qs)

/-- One-step unfolding of the prealloc loop. -/
theorem preallocLoop_succ (pagesize : Nat) (a : ebpf_allocator) (n : Nat)
    (ms : List (Option Nat)) :
    preallocLoop pagesize a (n + 1) ms =
      match (ebpf_allocator_alloc pagesize a ms).1 with
      | none => (ENOMEM, (ebpf_allocator_alloc pagesize a ms).2.1,
                 (ebpf_allocator_alloc pagesize a ms).2.2)
      | some tmp => preallocLoop pagesize
          (ebpf_allocator_free (ebpf_allocator_alloc pagesize a ms).2.1 tmp) n
          (ebpf_allocator_alloc pagesize a ms).2.2 := rfl

/-- A prealloc loop run ends with error code 0 or ENOMEM. -/
theorem preallocLoop_err (pagesize : Nat) :
    ∀ (n : Nat) (a : ebpf_allocator) (ms : List (Option Nat)),
      (preallocLoop pagesize a n ms).1 = 0 ∨
      (preallocLoop pagesize a n ms).1 = ENOMEM := by
  intro n
  induction n with
  | zero => intro a ms; exact Or.inl rfl
  | succ m ih =>
    intro a ms
    rw [preallocLoop_succ]
    cases hr : (ebpf_allocator_alloc pagesize a ms).1 with
    | none => exact Or.inr rfl
    | some tmp => exact ih _ _

/-- A successful prealloc loop of at least one iteration leaves the free
list non-empty: the last iteration pushes its block back. -/
theorem preallocLoop_free_ne_nil (pagesize : Nat) :
    ∀ (n : Nat) (a : ebpf_allocator) (ms : List (Option Nat)),
      1 ≤ n → (preallocLoop pagesize a n ms).1 = 0 →
      (preallocLoop pagesize a n ms).2.1.free_block ≠ [] := by
  intro n
  induction n with
  | zero => intro a ms h; exact absurd h (by omega)
  | succ m ih =>
    intro a ms _ h0
    rw [preallocLoop_succ] at h0 ⊢
    cases hr : (ebpf_allocator_alloc pagesize a ms).1 with
    | none =>
      rw [hr] at h0
      exact absurd h0 (by simp [ENOMEM])
    | some tmp =>
      rw [hr] at h0
      cases m with
      | zero => simp [preallocLoop, ebpf_allocator_free]
      | succ k => exact ih _ _ (by omega) h0

/-- On an empty free list, a failing backing allocation leaves the
allocator unchanged, for an abstract allocator value. -/
theorem alloc_fail_state (pagesize : Nat) (a : ebpf_allocator)
    (rest : List (Option Nat)) (h : a.free_block = []) :
    ebpf_allocator_alloc pagesize a (none :: rest) = (none, a, rest) := by
  obtain ⟨bs, fb, segs⟩ := a
  change fb = [] at h
  subst h
  exact (alloc_fail_result pagesize bs segs rest).1

/-- C6.  `ebpf_allocator_init` fails with `EINVAL` exactly when the block
size is zero or not a multiple of the pointer alignment; otherwise it
succeeds with the block size recorded and both lists empty. -/
theorem allocator_init_spec (bs : Nat) (_hbs : bs < 2 ^ 32) :
    (ebpf_allocator_init bs = Except.error EINVAL ↔ bs = 0 ∨ bs % PTR_ALIGN ≠ 0) ∧
    (bs ≠ 0 → bs % PTR_ALIGN = 0 →
      ebpf_allocator_init bs =
        Except.ok { block_size := bs, free_block := [], used_segment := [] }) := by
  constructor
  · constructor
    · intro h
      by_contra hc
      push_neg at hc
      unfold ebpf_allocator_init at h
      rw [if_neg (by tauto)] at h
      exact Except.noConfusion h
    · intro h
      unfold ebpf_allocator_init
      rw [if_pos (by tauto)]
  · intro h1 h2
    unfold ebpf_allocator_init
    rw [if_neg (by tauto)]

theorem allocator_init_spec_witness :
    ebpf_allocator_init 16 =
      Except.ok { block_size := 16, free_block := [], used_segment := [] } ∧
    ebpf_allocator_init 12 = Except.error EINVAL :=
  ⟨(allocator_init_spec 16 (by decide)).2 (by decide) (by decide),
   (allocator_init_spec 12 (by decide)).1.mpr (Or.inr (by decide))⟩

/-- C8.  `ebpf_allocator_free` pushes the pointer onto the free list and
changes nothing else: the used-segment list and the block size are
untouched, so no memory returns to the operating system. -/
theorem allocator_free_frame (a : ebpf_allocator) (p : Nat) :
    (ebpf_allocator_free a p).free_block = p :: a.free_block ∧
    (ebpf_allocator_free a p).used_segment = a.used_segment ∧
    (ebpf_allocator_free a p).block_size = a.block_size :=
  ⟨rfl, rfl, rfl⟩

/-- C9.  `ebpf_allocator_prealloc` with zero blocks fails with `EINVAL`
and leaves the allocator untouched. -/
theorem allocator_prealloc_zero_einval (pagesize : Nat) (a : ebpf_allocator)
    (ms : List (Option Nat)) :
    ebpf_allocator_prealloc pagesize a 0 ms = (EINVAL, a, ms) := rfl

/-- C10.  Whenever the free list is non-empty or the backing allocation
succeeds, `ebpf_allocator_alloc` returns a block: the carving do/while
loop always inserts at least one block before the mutex-protected pop, so
the pop never runs on an empty free list. -/
theorem allocator_alloc_isSome_of_success (pagesize : Nat)
    (a : ebpf_allocator) (ms : List (Option Nat))
    (h : a.free_block ≠ [] ∨ ∃ addr rest, ms = some addr :: rest) :
    (ebpf_allocator_alloc pagesize a ms).1.isSome = true := by
  obtain ⟨bs, fb, segs⟩ := a
  cases fb with
  | cons p ps => rw [alloc_pop_result]; rfl
  | nil =>
    rcases h with h | ⟨addr, rest, rfl⟩
    · simp at h
    · by_cases hmis : addr % PTR_ALIGN = 0
      · rw [alloc_refill_result pagesize addr bs segs rest hmis]
        exact popFree_isSome _ _ (carveFuel_ne_nil _ _ _ _ _)
      · simp only [ebpf_allocator_alloc]
        apply popFree_isSome
        exact carveFuel_ne_nil _ _ _ _ _

theorem allocator_alloc_isSome_witness :
    (ebpf_allocator_alloc 4096 ⟨8, [40], []⟩ []).1.isSome = true :=
  allocator_alloc_isSome_of_success 4096 ⟨8, [40], []⟩ [] (Or.inl (by decide))

/-- C4 (amended).  On an empty free list, with the segment size
computation inside `uint32_t`: a failing backing allocation returns null
with the allocator unchanged; a successful one consumes exactly one
oracle entry, links exactly one new segment of size
`max(page_size, sizeof(segment_header) + block_size + align)` at the head
of the used-segment list, returns a block, and every block it hands out
or leaves on the free list is aligned and lies inside the new segment. -/
theorem allocator_alloc_refill_spec (pagesize addr bs : Nat)
    (segs : List (Nat × Nat)) (rest : List (Option Nat))
    (hbs8 : bs % PTR_ALIGN = 0) (hbs : PTR_ALIGN ≤ bs)
    (hov : ENTRY_SIZE + bs + PTR_ALIGN < 2 ^ 32)
    (hpg8 : pagesize % PTR_ALIGN = 0) (hpg32 : pagesize < 2 ^ 32)
    (haddr : addr % PTR_ALIGN = 0) :
    ebpf_allocator_alloc pagesize ⟨bs, [], segs⟩ (none :: rest) =
      (none, ⟨bs, [], segs⟩, rest) ∧
    (ebpf_allocator_alloc pagesize ⟨bs, [], segs⟩ (some addr :: rest)).2.2 =
      rest ∧
    (ebpf_allocator_alloc pagesize ⟨bs, [], segs⟩
      (some addr :: rest)).2.1.block_size = bs ∧
    (ebpf_allocator_alloc pagesize ⟨bs, [], segs⟩
      (some addr :: rest)).2.1.used_segment =
      (addr, max pagesize (ENTRY_SIZE + bs + PTR_ALIGN)) :: segs ∧
    (ebpf_allocator_alloc pagesize ⟨bs, [], segs⟩
      (some addr :: rest)).1.isSome = true ∧
    ∀ q, ((ebpf_allocator_alloc pagesize ⟨bs, [], segs⟩
            (some addr :: rest)).1 = some q ∨
          q ∈ (ebpf_allocator_alloc pagesize ⟨bs, [], segs⟩
            (some addr :: rest)).2.1.free_block) →
      q % PTR_ALIGN = 0 ∧ addr ≤ q ∧
      q + bs ≤ addr + max pagesize (ENTRY_SIZE + bs + PTR_ALIGN) := by
  have hmax : segmentSize pagesize bs =
      max pagesize (ENTRY_SIZE + bs + PTR_ALIGN) :=
    segmentSize_eq_max pagesize hov
  have hcarve := carved_block_inv pagesize addr bs hbs8 hbs hov hpg8 hpg32 haddr
  rw [alloc_refill_result pagesize addr bs segs rest haddr]
  refine ⟨(alloc_fail_result pagesize bs segs rest).1, ?_⟩
  cases hc : carveFuel (segmentSize pagesize bs + 1) bs (addr + ENTRY_SIZE)
      (segmentSize pagesize bs) [] with
  | nil => exact absurd hc (carveFuel_ne_nil _ _ _ _ _)
  | cons q qs =>
    simp only [popFree, hc]
    refine ⟨by trivial, by trivial, by rw [hmax], by trivial, ?_⟩
    intro x hx
    have hxmem : x ∈ carveFuel (segmentSize pagesize bs + 1) bs
        (addr + ENTRY_SIZE) (segmentSize pagesize bs) [] := by
      rw [hc]
      rcases hx with hx | hx
      · injection hx with hx
        subst hx
        exact List.mem_cons_self q qs
      · exact List.mem_cons_of_mem q hx
    obtain ⟨h1, h2, h3⟩ := hcarve x hxmem
    exact ⟨h1, h2, by rw [← hmax]; exact h3⟩

theorem allocator_alloc_refill_spec_witness :
    ebpf_allocator_alloc 4096 ⟨8, [], []⟩ [none] = (none, ⟨8, [], []⟩, []) ∧
    (ebpf_allocator_alloc 4096 ⟨8, [], []⟩ [some 0]).2.1.used_segment =
      [(0, max 4096 (ENTRY_SIZE + 8 + PTR_ALIGN))] :=
  ⟨(allocator_alloc_refill_spec 4096 0 8 [] [] (by decide) (by decide)
      (by decide) (by decide) (by decide) (by decide)).1,
   (allocator_alloc_refill_spec 4096 0 8 [] [] (by decide) (by decide)
      (by decide) (by decide) (by decide) (by decide)).2.2.2.1⟩

/-- C4 counterexample.  With `block_size = 2^32 - 8`, accepted by
`ebpf_allocator_init`, the `uint32_t` truncation makes the code allocate
and record a segment of 8 bytes, not of
`max(page_size, sizeof(segment_header) + block_size + align)`. -/
theorem allocator_alloc_segment_size_overflow_cex :
    ebpf_allocator_init 4294967288 =
      Except.ok { block_size := 4294967288, free_block := [],
                  used_segment := [] } ∧
    (ebpf_allocator_alloc 4096 ⟨4294967288, [], []⟩ [some 16]).2.1.used_segment
      = [(16, 8)] ∧
    (8 : Nat) ≠ max 4096 (ENTRY_SIZE + 4294967288 + PTR_ALIGN) := by
  refine ⟨rfl, by decide, by decide⟩

/-- C1 failing-input evaluation.  With `block_size = 2^32 - 8` the
allocator is successfully initialised, and on the first allocation (page
size 4096, backing allocation at address 0 succeeding with the 8 bytes
requested) it returns the pointer 8 whose `block_size`-byte block lies
far outside the only recorded segment, which is `[0, 8)`. -/
theorem allocator_block_escapes_segment :
    ebpf_allocator_init 4294967288 =
      Except.ok { block_size := 4294967288, free_block := [],
                  used_segment := [] } ∧
    (ebpf_allocator_alloc 4096 ⟨4294967288, [], []⟩ [some 0]).1 = some 8 ∧
    (ebpf_allocator_alloc 4096 ⟨4294967288, [], []⟩ [some 0]).2.1.used_segment
      = [(0, 8)] ∧
    ¬ blockInSeg 4294967288 [(0, 8)] 8 := by
  refine ⟨rfl, by decide, by decide, by decide⟩

/-- C7 (amended).  For `n ≥ 1`, `ebpf_allocator_prealloc` returns
`ENOMEM` when the backing allocation of the first iteration fails (the
only iteration that can allocate, when the free list starts empty), and
otherwise returns 0 having immediately returned every allocated block,
leaving the free list non-empty — though possibly with fewer than `n`
blocks. -/
theorem allocator_prealloc_spec (pagesize n : Nat) (a : ebpf_allocator)
    (ms rest : List (Option Nat)) (hn : 1 ≤ n) :
    (a.free_block = [] → ms = none :: rest →
      ebpf_allocator_prealloc pagesize a n ms = (ENOMEM, a, rest)) ∧
    ((ebpf_allocator_prealloc pagesize a n ms).1 = 0 →
      (ebpf_allocator_prealloc pagesize a n ms).2.1.free_block ≠ []) ∧
    ((ebpf_allocator_prealloc pagesize a n ms).1 = 0 ∨
     (ebpf_allocator_prealloc pagesize a n ms).1 = ENOMEM) := by
  have hne : ¬ n = 0 := by omega
  refine ⟨?_, ?_, ?_⟩
  · intro hfb hms
    subst hms
    unfold ebpf_allocator_prealloc
    rw [if_neg hne]
    obtain ⟨m, rfl⟩ : ∃ m, n = m + 1 := ⟨n - 1, by omega⟩
    rw [preallocLoop_succ, alloc_fail_state pagesize a rest hfb]
  · unfold ebpf_allocator_prealloc
    rw [if_neg hne]
    exact preallocLoop_free_ne_nil pagesize n a ms hn
  · unfold ebpf_allocator_prealloc
    rw [if_neg hne]
    exact preallocLoop_err pagesize n a ms

theorem allocator_prealloc_spec_witness :
    ebpf_allocator_prealloc 4096 ⟨8, [], []⟩ 1 [none] =
      (ENOMEM, ⟨8, [], []⟩, []) :=
  (allocator_prealloc_spec 4096 1 ⟨8, [], []⟩ [none] [] (by omega)).1 rfl rfl

/-- C7 counterexample.  Preallocating 2 blocks succeeds but leaves only
one block on the free list: apart from the first iteration, each
iteration reuses the block the previous one freed. -/
theorem allocator_prealloc_fewer_blocks_cex :
    (ebpf_allocator_prealloc 4096 ⟨4096, [], []⟩ 2 [some 0]).1 = 0 ∧
    (ebpf_allocator_prealloc 4096 ⟨4096, [], []⟩ 2 [some 0]).2.1.free_block
      = [8] ∧
    ¬ 2 ≤ ([8] : List Nat).length := by
  refine ⟨by decide, by decide, by decide⟩

/- ------------------------------------------------------------------ -/
/- Map lemmas and claims.                                              -/
/- ------------------------------------------------------------------ -/

theorem mapLookup_overwrite (k v : List Nat) :
    ∀ (es : List (List Nat × List Nat)) (w : List Nat),
      mapLookup es k = some w → mapLookup (mapOverwrite es k v) k = some v := by
  intro es
  induction es with
  | nil => intro w h; exact absurd h (by simp [mapLookup])
  | cons e rest ih =>
    intro w h
    obtain ⟨k1, v1⟩ := e
    by_cases hk : k1 = k
    · subst hk
      simp [mapOverwrite, mapLookup]
    · simp only [mapLookup, mapOverwrite, if_neg hk] at h ⊢
      exact ih w h

theorem mapOverwrite_length (k v : List Nat) :
    ∀ es : List (List Nat × List Nat), (mapOverwrite es k v).length = es.length := by
  intro es
  induction es with
  | nil => rfl
  | cons e rest ih =>
    obtain ⟨k1, v1⟩ := e
    simp only [mapOverwrite]
    split
    · rfl
    · simp only [List.length_cons, ih]

theorem mapRemove_length_le (es : List (List Nat × List Nat)) (k : List Nat) :
    (mapRemove es k).length ≤ es.length := by
  induction es with
  | nil => simp [mapRemove]
  | cons e rest ih =>
    obtain ⟨k1, v1⟩ := e
    simp only [mapRemove]
    split
    · simp
    · simp only [List.length_cons]
      omega

/-- One user update never pushes the element count above `max_entries`. -/
theorem update_length_le (m2 : ebpf_map) (k2 v2 : List Nat) (fl : Nat)
    (h : m2.entries.length ≤ m2.max_entries) :
    (ebpf_map_update_elem_from_user m2 k2 v2 fl).2.entries.length ≤
      m2.max_entries := by
  unfold ebpf_map_update_elem_from_user
  cases hl : mapLookup m2.entries k2 with
  | some w =>
    by_cases hf : fl = EBPF_NOEXIST
    · rw [if_pos hf]; exact h
    · rw [if_neg hf]
      show (mapOverwrite m2.entries k2 v2).length ≤ m2.max_entries
      rw [mapOverwrite_length]
      exact h
  | none =>
    by_cases hf : fl = EBPF_EXIST
    · rw [if_pos hf]; exact h
    · rw [if_neg hf]
      by_cases hc : m2.max_entries ≤ m2.entries.length
      · rw [if_pos hc]; exact h
      · rw [if_neg hc]
        show ((k2, v2) :: m2.entries).length ≤ m2.max_entries
        simp only [List.length_cons]
        omega

/-- One user delete never pushes the element count above `max_entries`. -/
theorem delete_length_le (m2 : ebpf_map) (k2 : List Nat)
    (h : m2.entries.length ≤ m2.max_entries) :
    (ebpf_map_delete_elem_from_user m2 k2).2.entries.length ≤
      m2.max_entries := by
  unfold ebpf_map_delete_elem_from_user
  cases hl : mapLookup m2.entries k2 with
  | none => exact h
  | some w => exact le_trans (mapRemove_length_le _ _) h

/-- Inserting fresh, pairwise distinct keys below capacity succeeds key
by key, growing the entry list by one each time and leaving every other
absent key absent. -/
theorem insertAllAny_spec (v : List Nat) :
    ∀ (ks : List (List Nat)) (m : ebpf_map),
      ks.Nodup → (∀ k ∈ ks, mapLookup m.entries k = none) →
      m.entries.length + ks.length ≤ m.max_entries →
      (insertAllAny m ks v).1 = List.replicate ks.length 0 ∧
      (insertAllAny m ks v).2.entries.length = m.entries.length + ks.length ∧
      (insertAllAny m ks v).2.max_entries = m.max_entries ∧
      (∀ k1, mapLookup m.entries k1 = none → k1 ∉ ks →
        mapLookup (insertAllAny m ks v).2.entries k1 = none) := by
  intro ks
  induction ks with
  | nil =>
    intro m _ _ _
    exact ⟨rfl, by simp [insertAllAny], rfl,
      fun k1 h _ => by simpa [insertAllAny] using h⟩
  | cons k rest ih =>
    intro m hnd habs hcap
    have hk : mapLookup m.entries k = none := habs k (List.mem_cons_self k rest)
    have hlt : m.entries.length < m.max_entries := by
      simp only [List.length_cons] at hcap
      omega
    have hupd : ebpf_map_update_elem_from_user m k v EBPF_ANY =
        (0, { m with entries := (k, v) :: m.entries }) := by
      simp only [ebpf_map_update_elem_from_user, hk]
      rw [if_neg (by decide), if_neg (by omega)]
    have hknr : k ∉ rest := (List.nodup_cons.mp hnd).1
    have hndr : rest.Nodup := (List.nodup_cons.mp hnd).2
    have habs2 : ∀ k2 ∈ rest,
        mapLookup ({ m with entries := (k, v) :: m.entries } :
          ebpf_map).entries k2 = none := by
      intro k2 hk2
      have hne : ¬ k = k2 := fun he => hknr (he ▸ hk2)
      simp only [mapLookup]
      rw [if_neg hne]
      exact habs k2 (List.mem_cons_of_mem k hk2)
    have hcap2 : ({ m with entries := (k, v) :: m.entries } :
          ebpf_map).entries.length + rest.length ≤
        ({ m with entries := (k, v) :: m.entries } : ebpf_map).max_entries := by
      simp only [List.length_cons] at hcap ⊢
      omega
    obtain ⟨ih1, ih2, ih3, ih4⟩ := ih _ hndr habs2 hcap2
    simp only [insertAllAny, hupd]
    refine ⟨?_, ?_, ih3, ?_⟩
    · simp [ih1, List.replicate_succ]
    · simp only [List.length_cons]
      simp only [List.length_cons] at ih2
      omega
    · intro k1 h1 h2
      have h2a : ¬ k1 = k := fun he => h2 (he ▸ List.mem_cons_self k rest)
      have h2b : k1 ∉ rest := fun hmem => h2 (List.mem_cons_of_mem k hmem)
      apply ih4 k1 ?_ h2b
      simp only [mapLookup]
      rw [if_neg (fun he => h2a he.symm)]
      exact h1

/-- C2.  Flag semantics of a user update on a HashTable map: on a present
key, `NOEXIST` fails with the exists-error while `EXIST` and `ANY`
overwrite and return 0; on an absent key, `EXIST` fails with not-found
while, below capacity, `NOEXIST` and `ANY` insert and return 0. -/
theorem hashtable_update_flag_semantics (m : ebpf_map) (k v : List Nat) :
    ((mapLookup m.entries k).isSome = true →
      ebpf_map_update_elem_from_user m k v EBPF_NOEXIST = (EEXIST, m) ∧
      (ebpf_map_update_elem_from_user m k v EBPF_EXIST).1 = 0 ∧
      mapLookup (ebpf_map_update_elem_from_user m k v EBPF_EXIST).2.entries k
        = some v ∧
      (ebpf_map_update_elem_from_user m k v EBPF_ANY).1 = 0 ∧
      mapLookup (ebpf_map_update_elem_from_user m k v EBPF_ANY).2.entries k
        = some v) ∧
    (mapLookup m.entries k = none →
      ebpf_map_update_elem_from_user m k v EBPF_EXIST = (ENOENT, m) ∧
      (m.entries.length < m.max_entries →
        (ebpf_map_update_elem_from_user m k v EBPF_NOEXIST).1 = 0 ∧
        mapLookup (ebpf_map_update_elem_from_user m k v EBPF_NOEXIST).2.entries k
          = some v ∧
        (ebpf_map_update_elem_from_user m k v EBPF_ANY).1 = 0 ∧
        mapLookup (ebpf_map_update_elem_from_user m k v EBPF_ANY).2.entries k
          = some v)) := by
  constructor
  · intro hs
    obtain ⟨w, hw⟩ := Option.isSome_iff_exists.mp hs
    have hover : mapLookup (mapOverwrite m.entries k v) k = some v :=
      mapLookup_overwrite k v m.entries w hw
    refine ⟨?_, ?_, ?_, ?_, ?_⟩ <;>
      simp only [ebpf_map_update_elem_from_user, hw]
    · simp
    · rw [if_neg (by decide)]
    · rw [if_neg (by decide)]
      exact hover
    · rw [if_neg (by decide)]
    · rw [if_neg (by decide)]
      exact hover
  · intro hn
    have hins : mapLookup ((k, v) :: m.entries) k = some v := by
      simp [mapLookup]
    refine ⟨?_, ?_⟩
    · simp only [ebpf_map_update_elem_from_user, hn]
      simp
    · intro hcap
      refine ⟨?_, ?_, ?_, ?_⟩ <;>
        simp only [ebpf_map_update_elem_from_user, hn]
      · rw [if_neg (by decide), if_neg (by omega)]
      · rw [if_neg (by decide), if_neg (by omega)]
        exact hins
      · rw [if_neg (by decide), if_neg (by omega)]
      · rw [if_neg (by decide), if_neg (by omega)]
        exact hins

theorem hashtable_update_flag_semantics_witness :
    ebpf_map_update_elem_from_user ⟨1, 1, 10, [([5], [6])]⟩ [5] [7] EBPF_NOEXIST
      = (EEXIST, ⟨1, 1, 10, [([5], [6])]⟩) ∧
    ebpf_map_update_elem_from_user ⟨1, 1, 10, []⟩ [5] [7] EBPF_EXIST
      = (ENOENT, ⟨1, 1, 10, []⟩) :=
  ⟨((hashtable_update_flag_semantics ⟨1, 1, 10, [([5], [6])]⟩ [5] [7]).1
      (by decide)).1,
   ((hashtable_update_flag_semantics ⟨1, 1, 10, []⟩ [5] [7]).2 (by decide)).1⟩

/-- C3.  On a fresh HashTable map, inserting `max_entries` pairwise
distinct keys with flag `ANY` succeeds throughout, a further fresh key
fails with the busy-error, and a single user update or delete never
pushes the element count above `max_entries`. -/
theorem hashtable_capacity_bound (m : ebpf_map) (ks : List (List Nat))
    (v v1 k1 : List Nat)
    (h0 : m.entries = []) (hnd : ks.Nodup) (hlen : ks.length = m.max_entries)
    (hk1 : k1 ∉ ks) :
    (insertAllAny m ks v).1 = List.replicate m.max_entries 0 ∧
    ebpf_map_update_elem_from_user (insertAllAny m ks v).2 k1 v1 EBPF_ANY =
      (EBUSY, (insertAllAny m ks v).2) ∧
    (∀ (m2 : ebpf_map) (k2 v2 : List Nat) (fl : Nat),
      m2.entries.length ≤ m2.max_entries →
      (ebpf_map_update_elem_from_user m2 k2 v2 fl).2.entries.length ≤
        m2.max_entries) ∧
    (∀ (m2 : ebpf_map) (k2 : List Nat),
      m2.entries.length ≤ m2.max_entries →
      (ebpf_map_delete_elem_from_user m2 k2).2.entries.length ≤
        m2.max_entries) := by
  have habs : ∀ k ∈ ks, mapLookup m.entries k = none := by
    intro k _
    rw [h0]
    rfl
  have hcap : m.entries.length + ks.length ≤ m.max_entries := by
    rw [h0]
    simpa using le_of_eq hlen
  obtain ⟨h1, h2, h3, h4⟩ := insertAllAny_spec v ks m hnd habs hcap
  refine ⟨by rw [h1, hlen], ?_, update_length_le, delete_length_le⟩
  have hfull : (insertAllAny m ks v).2.max_entries ≤
      (insertAllAny m ks v).2.entries.length := by
    rw [h2, h3, h0]
    simp [hlen]
  have hnone : mapLookup (insertAllAny m ks v).2.entries k1 = none :=
    h4 k1 (by rw [h0]; rfl) hk1
  simp only [ebpf_map_update_elem_from_user, hnone]
  rw [if_neg (by decide), if_pos hfull]

theorem hashtable_capacity_bound_witness :
    (insertAllAny ⟨1, 1, 2, []⟩ [[0], [1]] [9]).1 = List.replicate 2 0 ∧
    ebpf_map_update_elem_from_user (insertAllAny ⟨1, 1, 2, []⟩ [[0], [1]] [9]).2
      [2] [9] EBPF_ANY = (EBUSY, (insertAllAny ⟨1, 1, 2, []⟩ [[0], [1]] [9]).2) :=
  ⟨(hashtable_capacity_bound ⟨1, 1, 2, []⟩ [[0], [1]] [9] [9] [2] rfl
      (by decide) rfl (by decide)).1,
   (hashtable_capacity_bound ⟨1, 1, 2, []⟩ [[0], [1]] [9] [9] [2] rfl
      (by decide) rfl (by decide)).2.1⟩

/-- C5.  `ebpf_prog_init` fails with `EINVAL` on a null program pointer,
a null instruction pointer, a type at or above the sentinel, or a length
outside `[1, EBPF_MAX_INSTS]`; on the valid attribute of the tests (type
TEST, one EXIT instruction, length 1) it returns 0. -/
theorem prog_init_validation (b : Bool) (attr : ebpf_prog_attr) :
    ebpf_prog_init true (some attr) = EINVAL ∧
    (attr.prog = none → ebpf_prog_init b (some attr) = EINVAL) ∧
    (EBPF_PROG_TYPE_MAX ≤ attr.type → ebpf_prog_init b (some attr) = EINVAL) ∧
    (attr.prog_len = 0 ∨ EBPF_MAX_INSTS < attr.prog_len →
      ebpf_prog_init b (some attr) = EINVAL) ∧
    ebpf_prog_init false
      (some { type := EBPF_PROG_TYPE_TEST,
              prog := some [{ opcode := EBPF_OP_EXIT, dst := 0, src := 0,
                              offset := 0, imm := 0 }],
              prog_len := 1 }) = 0 := by
  refine ⟨rfl, ?_, ?_, ?_, by decide⟩
  · intro h
    cases b with
    | true => rfl
    | false => simp [ebpf_prog_init, h, ite_self]
  · intro h
    cases b with
    | true => rfl
    | false => simp [ebpf_prog_init, if_pos h]
  · intro h
    cases b with
    | true => rfl
    | false =>
      simp only [ebpf_prog_init, Bool.false_eq_true, if_false]
      split_ifs <;> rfl

theorem prog_init_validation_witness :
    ebpf_prog_init false (some ⟨EBPF_PROG_TYPE_MAX,
      some [⟨EBPF_OP_EXIT, 0, 0, 0, 0⟩], 1⟩) = EINVAL ∧
    ebpf_prog_init false (some ⟨EBPF_PROG_TYPE_TEST,
      some [⟨EBPF_OP_EXIT, 0, 0, 0, 0⟩], 0⟩) = EINVAL :=
  ⟨(prog_init_validation false ⟨EBPF_PROG_TYPE_MAX,
      some [⟨EBPF_OP_EXIT, 0, 0, 0, 0⟩], 1⟩).2.2.1 (by decide),
   (prog_init_validation false ⟨EBPF_PROG_TYPE_TEST,
      some [⟨EBPF_OP_EXIT, 0, 0, 0, 0⟩], 0⟩).2.2.2.1 (Or.inl rfl)⟩
